import Mathlib

/-!
Shallow embedding of the execution core of `opencode-flow`
(`src/core/flow.ts`, `src/core/agent-manager.ts`, `src/core/memory.ts`,
`src/core/types.ts`).

Remote calls (`FlowClient.sendMessage`, `createSession`, ...) are abstracted
as outcome oracles: each call site receives an `Except Err CallOk` telling
whether that remote call failed or succeeded and, on success, with which
cost/token/duration data. Since the oracles are universally quantified,
theorems hold for every possible behaviour of the remote service, which in
particular covers every completion order of concurrent calls: in
`Promise.allSettled` the slot of index `i` depends only on the outcome of
promise `i`, never on scheduling, and the embedding makes that explicit.
Wall-clock time (`Date.now()`) is threaded as explicit rational-valued
clock parameters. JavaScript numbers are modelled by `ℚ`.
-/

namespace OpencodeFlow

/-- `TokenUsage` from `types.ts`: `{input, output}` token counts. -/
structure TokenUsage where
  input : ℚ
  output : ℚ
deriving DecidableEq, Repr

/-- The error classes of `types.ts`: `FlowError (message, code)` and its
subclasses `TaskExecutionError` (code `TASK_FAILED`, details
`{task, agent, cause}`) and `AgentSpawnError` (code `AGENT_SPAWN_FAILED`,
details `{agentName, cause}`). -/
inductive Err where
  | flow (message : String) (code : String)
  | taskExec (task : String) (agent : String) (cause : Err)
  | agentSpawn (agent : String) (cause : Err)
deriving DecidableEq, Repr

/-- The `code` property of an error object (`FlowError.code`;
the subclasses fix their codes in their constructors). -/
def Err.code : Err → String
  | .flow _ c => c
  | .taskExec _ _ _ => "TASK_FAILED"
  | .agentSpawn _ _ => "AGENT_SPAWN_FAILED"

/-- The `cause` recorded in the `details` of a wrapping error
(`none` for a plain `FlowError`). -/
def Err.cause : Err → Option Err
  | .flow _ _ => none
  | .taskExec _ _ e => some e
  | .agentSpawn _ e => some e

/-- Successful response of one `client.sendMessage` call, as consumed by the
orchestrator: `result.info.cost` (optional), `result.info.tokens` (optional),
plus the wall-clock duration of the awaited call (`Date.now()` delta measured
around the `await`). -/
structure CallOk where
  cost : Option ℚ
  tokens : Option TokenUsage
  duration : ℚ
deriving DecidableEq, Repr

/-- `result.info.cost || 0` -/
def CallOk.costOrZero (r : CallOk) : ℚ := r.cost.getD 0

/-- `result.info.tokens?.input || 0` -/
def CallOk.tokensInput (r : CallOk) : ℚ := (r.tokens.map TokenUsage.input).getD 0

/-- `result.info.tokens?.output || 0` -/
def CallOk.tokensOutput (r : CallOk) : ℚ := (r.tokens.map TokenUsage.output).getD 0

/-- `ExecutionResult` from `types.ts`. -/
structure ExecutionResult where
  agent : String
  status : String            -- 'fulfilled' | 'rejected'
  output : Option CallOk := none
  error : Option Err := none
  duration : ℚ
  cost : ℚ
  tokensUsed : TokenUsage
deriving DecidableEq, Repr

-- ===========================================================================
-- FileMemoryBackend (src/core/memory.ts)
-- ===========================================================================

/-- `MemoryEntry` from `types.ts`, with the opaque `value: any` payload kept
as a type parameter. -/
structure MemoryEntry (α : Type) where
  key : String
  value : α
  createdAt : ℚ
  expiresAt : Option ℚ
  createdBy : String
deriving DecidableEq, Repr

/-- Association-list update with JS-`Map.set` semantics: replace in place if
the key is present, append otherwise (insertion order preserved). -/
def setAssoc {β : Type} (k : String) (v : β) : List (String × β) → List (String × β)
  | [] => [(k, v)]
  | (k', v') :: rest => if k' = k then (k, v) :: rest else (k', v') :: setAssoc k v rest

/-- Association-list lookup (`Map.get`). -/
def getAssoc {β : Type} (k : String) : List (String × β) → Option β
  | [] => none
  | (k', v) :: rest => if k' = k then some v else getAssoc k rest

/-- Association-list removal (`Map.delete` / `fs.unlink`). -/
def delAssoc {β : Type} (k : String) : List (String × β) → List (String × β)
  | [] => []
  | (k', v) :: rest => if k' = k then delAssoc k rest else (k', v) :: delAssoc k rest

/-- A character of the storage-safe class `[a-zA-Z0-9_-]` kept verbatim by
`FileMemoryBackend.getFilePath`'s sanitization regex. -/
def isSafeChar (c : Char) : Bool :=
  ('a' ≤ c && c ≤ 'z') || ('A' ≤ c && c ≤ 'Z') || ('0' ≤ c && c ≤ '9') || c = '_' || c = '-'

/-- `key.replace(/[^a-zA-Z0-9_-]/g, '_')` from `FileMemoryBackend.getFilePath`:
every character outside the safe class becomes `'_'`. -/
def sanitizeKey (k : String) : String :=
  ⟨k.data.map (fun c => if isSafeChar c then c else '_')⟩

/-- The base name (relative to the store directory) of the file backing a
key: `getFilePath` produces `<sanitizedKey>.json`. -/
def fileNameOf (k : String) : String := sanitizeKey k ++ ".json"

/-- JS `f.endsWith('.json')` used by `listKeys`' filter. -/
def strEndsWithJson (f : String) : Bool := ".json".data.isSuffixOf f.data

/-- JS `String.replace` with a string pattern removes the FIRST occurrence of
the pattern only; this is the list-level engine for `f.replace('.json', '')`. -/
def removeFirst (pat : List Char) : List Char → List Char
  | [] => []
  | c :: rest => if pat.isPrefixOf (c :: rest) then (c :: rest).drop pat.length
                 else c :: removeFirst pat rest

/-- `f.replace('.json', '')` from `FileMemoryBackend.listKeys`. -/
def stripJson (f : String) : String := ⟨removeFirst ".json".data f.data⟩

/-- State of a `FileMemoryBackend`: the in-memory `cache` (keyed by the raw
key) and the backing directory `files` (keyed by file name, holding the
JSON-serialized entry). Write failures to disk are caught and logged by the
source; the embedding models the runs in which persistence succeeds. -/
structure MemState (α : Type) where
  cache : List (String × MemoryEntry α)
  files : List (String × MemoryEntry α)
deriving DecidableEq, Repr

/-- The freshly-constructed backend (empty cache, empty directory). -/
def emptyMem (α : Type) : MemState α := ⟨[], []⟩

/-- `FileMemoryBackend.set(key, value, ttl?)` at wall-clock time `now`:
builds the entry with `expiresAt = ttl ? Date.now() + ttl * 1000 : undefined`
(JS truthiness: `ttl = 0` counts as absent), stores it in the cache under the
raw key and persists it under the sanitized file name. -/
def memSet {α : Type} (st : MemState α) (k : String) (v : α) (ttl : Option ℚ) (now : ℚ) :
    MemState α :=
  let entry : MemoryEntry α :=
    { key := k, value := v, createdAt := now,
      expiresAt := match ttl with
        | some t => if t = 0 then none else some (now + t * 1000)
        | none => none,
      createdBy := "system" }
  { cache := setAssoc k entry st.cache,
    files := setAssoc (fileNameOf k) entry st.files }

/-- `FileMemoryBackend.delete(key)`: evict from the cache and unlink the
backing file (missing file ignored). -/
def memDelete {α : Type} (st : MemState α) (k : String) : MemState α :=
  { cache := delAssoc k st.cache,
    files := delAssoc (fileNameOf k) st.files }

/-- `FileMemoryBackend.get(key)` at wall-clock time `now`: cache lookup,
falling back to reading and caching the backing file; an entry whose
`expiresAt` has passed (`Date.now() > expiresAt`) is deleted as a side
effect and reported absent (`null`). Returns the value (or `none`) together
with the post-state. -/
def memGet {α : Type} (st : MemState α) (k : String) (now : ℚ) :
    Option α × MemState α :=
  let loaded : Option (MemoryEntry α × MemState α) :=
    match getAssoc k st.cache with
    | some entry => some (entry, st)
    | none =>
      match getAssoc (fileNameOf k) st.files with
      | some entry => some (entry, { st with cache := setAssoc k entry st.cache })
      | none => none
  match loaded with
  | none => (none, st)
  | some (entry, st') =>
    match entry.expiresAt with
    | some t => if now > t then (none, memDelete st' k) else (some entry.value, st')
    | none => (some entry.value, st')

/-- `FileMemoryBackend.listKeys()`: directory listing filtered to `.json`
files, with the first occurrence of `'.json'` removed from each name. -/
def memListKeys {α : Type} (st : MemState α) : List String :=
  ((st.files.map Prod.fst).filter strEndsWithJson).map stripJson

/-- `FileMemoryBackend.clear()`: clear the cache and unlink every file in the
store directory. -/
def memClear {α : Type} (_st : MemState α) : MemState α := ⟨[], []⟩

-- ===========================================================================
-- AgentManager (src/core/agent-manager.ts)
-- ===========================================================================

/-- `AgentMetrics` from `types.ts`. -/
structure AgentMetrics where
  tasksCompleted : ℕ
  totalCost : ℚ
  totalTokens : TokenUsage
  averageLatency : ℚ
deriving DecidableEq, Repr

/-- `AgentConfig` from `types.ts` (the fields the core reads). -/
structure AgentConfig where
  name : String
  agent : String
  model : String
  provider : Option String := none
  systemPrompt : Option String := none
  tools : List String := []
  temperature : Option ℚ := none
deriving DecidableEq, Repr

/-- `AgentInstance` from `types.ts` (the health-check timer handle is an
opaque runtime resource and is not part of the observable state). -/
structure AgentInstance where
  name : String
  sessionId : String
  config : AgentConfig
  status : String            -- 'idle' | 'busy' | 'error'
  createdAt : ℚ
  lastActivity : ℚ
  metrics : Option AgentMetrics
deriving DecidableEq, Repr

/-- The registry's `Map<string, AgentInstance>` as an insertion-ordered
association list (one entry per name; `Map.set` on a fresh key appends). -/
abbrev Registry : Type := List AgentInstance

/-- `this.agents.get(name)`. -/
def lookupAgent (reg : Registry) (name : String) : Option AgentInstance :=
  reg.find? (fun a => a.name == name)

/-- `AgentManager.has(name)` (`Map.has`). -/
def hasAgent (reg : Registry) (name : String) : Bool :=
  (lookupAgent reg name).isSome

/-- `AgentManager.list()`: the registered names in insertion order. -/
def listAgents (reg : Registry) : List String := reg.map AgentInstance.name

/-- `Session` as returned by `client.createSession`. -/
structure Session where
  id : String
  title : String
deriving DecidableEq, Repr

/-- One remote-gateway request issued by the registry, recorded for
call-count assertions. -/
inductive GatewayCall where
  | createSession (title : String)
  | sendMessage (sessionId : String) (text : String)
deriving DecidableEq, Repr

/-- `AgentManager.validateConfig`: non-empty name/agent/model, no space in
the name, `temperature ∈ [0,1]` when present. -/
def validateConfig (c : AgentConfig) : Except Err Unit :=
  if c.name = "" then
    .error (.flow "Agent name is required" "INVALID_CONFIG")
  else if c.agent = "" then
    .error (.flow "Agent type is required" "INVALID_CONFIG")
  else if c.model = "" then
    .error (.flow "Model is required" "INVALID_CONFIG")
  else if c.name.data.contains ' ' then
    .error (.flow "Agent name cannot contain spaces" "INVALID_CONFIG")
  else
    match c.temperature with
    | some t =>
      if t < 0 ∨ t > 1 then
        .error (.flow "Temperature must be between 0 and 1" "INVALID_CONFIG")
      else .ok ()
    | none => .ok ()

/-- The `try` body of `AgentManager.spawn`: validate, reject duplicate names
before any remote call, create the remote session, optionally send the system
prompt, then register the new handle (zeroed metrics). Remote outcomes are
supplied by the `sessionResult`/`promptResult` oracles; the returned
`Registry` is the post-state (unchanged on failure) and the `GatewayCall`
list records every remote request issued. -/
def spawnGo (reg : Registry) (config : AgentConfig) (now : ℕ)
    (sessionResult : Except Err Session) (promptResult : Except Err CallOk) :
    Except Err AgentInstance × Registry × List GatewayCall :=
  match validateConfig config with
  | .error e => (.error e, reg, [])
  | .ok _ =>
    if hasAgent reg config.name then
      (.error (.flow ("Agent with name '" ++ config.name ++ "' already exists")
        "AGENT_EXISTS"), reg, [])
    else
      let title := config.name ++ "-" ++ toString now
      match sessionResult with
      | .error e => (.error e, reg, [.createSession title])
      | .ok session =>
        let mkAgent : AgentInstance :=
          { name := config.name, sessionId := session.id, config := config,
            status := "idle", createdAt := (now : ℚ), lastActivity := (now : ℚ),
            metrics := some ⟨0, 0, ⟨0, 0⟩, 0⟩ }
        match config.systemPrompt with
        | some sp =>
          match promptResult with
          | .error e => (.error e, reg, [.createSession title, .sendMessage session.id sp])
          | .ok _ =>
            (.ok mkAgent, reg ++ [mkAgent],
              [.createSession title, .sendMessage session.id sp])
        | none => (.ok mkAgent, reg ++ [mkAgent], [.createSession title])

/-- `AgentManager.spawn`: the `catch` wraps any error from the body in an
`AgentSpawnError` naming the agent. -/
def spawn (reg : Registry) (config : AgentConfig) (now : ℕ)
    (sessionResult : Except Err Session) (promptResult : Except Err CallOk) :
    Except Err AgentInstance × Registry × List GatewayCall :=
  match spawnGo reg config now sessionResult promptResult with
  | (.error e, reg', calls) => (.error (.agentSpawn config.name e), reg', calls)
  | ok => ok

/-- The update record accepted by `AgentManager.updateMetrics`. -/
structure MetricsUpdate where
  cost : Option ℚ := none
  tokens : Option TokenUsage := none
  latency : Option ℚ := none
deriving DecidableEq, Repr

/-- The field-by-field accumulation `AgentManager.updateMetrics` performs on
one agent's metrics: additive cost and tokens; a latency increments
`tasksCompleted` and folds into the running average via
`total = averageLatency * tasksCompleted; averageLatency = (total + latency) / (tasksCompleted + 1)`. -/
def updateMetricsOn (m : AgentMetrics) (u : MetricsUpdate) : AgentMetrics :=
  let m1 := match u.cost with
    | some c => { m with totalCost := m.totalCost + c }
    | none => m
  let m2 := match u.tokens with
    | some t => { m1 with totalTokens :=
        ⟨m1.totalTokens.input + t.input, m1.totalTokens.output + t.output⟩ }
    | none => m1
  match u.latency with
  | some l =>
    let total := m2.averageLatency * (m2.tasksCompleted : ℚ)
    { m2 with tasksCompleted := m2.tasksCompleted + 1,
              averageLatency := (total + l) / ((m2.tasksCompleted : ℚ) + 1) }
  | none => m2

/-- `AgentManager.updateMetrics(name, update)`: mutate the named agent's
metrics in place; a no-op when the agent is absent or has no metrics. -/
def updateMetrics (reg : Registry) (name : String) (u : MetricsUpdate) : Registry :=
  reg.map (fun a =>
    if a.name = name then
      match a.metrics with
      | some m => { a with metrics := some (updateMetricsOn m u) }
      | none => a
    else a)

-- ===========================================================================
-- FlowOrchestrator (src/core/flow.ts)
-- ===========================================================================

/-- `FlowOrchestrator.validateAgents`: an empty list fails with
`INVALID_EXECUTION`; the first unregistered name fails with
`AGENT_NOT_FOUND`. -/
def validateAgents (reg : Registry) (agents : List String) : Except Err Unit :=
  if agents = [] then
    .error (.flow "At least one agent is required" "INVALID_EXECUTION")
  else
    match agents.find? (fun n => !hasAgent reg n) with
    | some n => .error (.flow ("Agent not found: " ++ n) "AGENT_NOT_FOUND")
    | none => .ok ()

/-- The fulfilled `ExecutionResult` assembled from one successful
`sendMessage` (both parallel and sequential branches build it identically). -/
def fulfilledResult (name : String) (r : CallOk) : ExecutionResult :=
  { agent := name, status := "fulfilled", output := some r, error := none,
    duration := r.duration, cost := r.costOrZero,
    tokensUsed := ⟨r.tokensInput, r.tokensOutput⟩ }

/-- `FlowOrchestrator.executeParallel`: after `validateAgents`, one promise
per agent; `Promise.allSettled` keeps the input order, so the slot of index
`i` is the fulfilled result of call `i`, or — when promise `i` rejected —
a `rejected` slot carrying the captured error (a `TaskExecutionError` for a
failed send, the raw `AGENT_NOT_FOUND` error for a handle that vanished),
`Date.now() - startTime` as duration (`elapsed`), zero cost and zero tokens.
`outcome i` is the oracle for the remote call of promise `i`. -/
def executeParallel (reg : Registry) (task : String) (agents : List String)
    (outcome : ℕ → Except Err CallOk) (elapsed : ℚ) :
    Except Err (List ExecutionResult) :=
  match validateAgents reg agents with
  | .error e => .error e
  | .ok _ =>
    .ok (agents.enum.map (fun p =>
      match lookupAgent reg p.2 with
      | none =>
        { agent := p.2, status := "rejected", output := none,
          error := some (.flow ("Agent not found: " ++ p.2) "AGENT_NOT_FOUND"),
          duration := elapsed, cost := 0, tokensUsed := ⟨0, 0⟩ }
      | some _ =>
        match outcome p.1 with
        | .ok r => fulfilledResult p.2 r
        | .error e =>
          { agent := p.2, status := "rejected", output := none,
            error := some (.taskExec task p.2 e),
            duration := elapsed, cost := 0, tokensUsed := ⟨0, 0⟩ }))

/-- The `rejected` result `executeSequential` pushes for the first failing
agent before breaking out of the loop: unlike the parallel and hierarchical
paths, the sequential `catch` stores the raw caught error without a
`TaskExecutionError` wrapper, with `duration: 0` and zero cost/tokens. -/
def seqRejectedResult (name : String) (e : Err) : ExecutionResult :=
  { agent := name, status := "rejected", output := none,
    error := some e,
    duration := 0, cost := 0, tokensUsed := ⟨0, 0⟩ }

/-- The loop body of `FlowOrchestrator.executeSequential`, from call index
`i` on: for each agent in turn, a vanished handle aborts the whole call with
`AGENT_NOT_FOUND`; a successful send appends the fulfilled result, records
the `"<name>_result"` store write, and continues; a failed send appends the
rejected result and `break`s. Returns the accumulated results, the indices
of the remote calls actually issued, and the coordination-store writes. (The
task text sent — raw task first, then task plus rendered prior results — is
absorbed into the per-index outcome oracle.) -/
def executeSequentialGo (reg : Registry) (task : String)
    (outcome : ℕ → Except Err CallOk) :
    ℕ → List String →
    Except Err (List ExecutionResult × List ℕ × List (String × CallOk))
  | _, [] => .ok ([], [], [])
  | i, name :: rest =>
    match lookupAgent reg name with
    | none => .error (.flow ("Agent not found: " ++ name) "AGENT_NOT_FOUND")
    | some _ =>
      match outcome i with
      | .error e => .ok ([seqRejectedResult name e], [i], [])
      | .ok r =>
        match executeSequentialGo reg task outcome (i + 1) rest with
        | .error e => .error e
        | .ok (res, called, writes) =>
          .ok (fulfilledResult name r :: res, i :: called,
            (name ++ "_result", r) :: writes)

/-- `FlowOrchestrator.executeSequential`: `validateAgents`, then the
fail-fast loop starting at call index `0`. -/
def executeSequential (reg : Registry) (task : String) (agents : List String)
    (outcome : ℕ → Except Err CallOk) :
    Except Err (List ExecutionResult × List ℕ × List (String × CallOk)) :=
  match validateAgents reg agents with
  | .error e => .error e
  | .ok _ => executeSequentialGo reg task outcome 0 agents

/-- `workerResults.reduce((sum, r) => sum + f r, 0)` as used by
`executeHierarchical`'s cost/token totals. -/
def sumBy (f : ExecutionResult → ℚ) (l : List ExecutionResult) : ℚ :=
  l.foldl (fun s r => s + f r) 0

/-- `FlowOrchestrator.executeHierarchical`: validate coordinator and workers,
send the planning prompt to the coordinator, run the workers through
`executeParallel`, send the aggregation prompt to the coordinator, and return
a single result attributed to the coordinator whose cost/token totals sum the
planning call, the worker results and the aggregation call, and whose
duration is `Date.now() - taskStartTime` with `taskStartTime` taken
immediately before the planning call. The wall clock starts at `t0`; the
planning and aggregation calls advance it by their durations and the parallel
worker phase by `workerElapsed`. Failures inside the `try` are wrapped in a
`TaskExecutionError` attributed to the coordinator. -/
def executeHierarchical (reg : Registry) (task : String)
    (coordinator : String) (workers : List String)
    (planOutcome : Except Err CallOk) (workerOutcome : ℕ → Except Err CallOk)
    (workerElapsed : ℚ) (aggOutcome : Except Err CallOk) (t0 : ℚ) :
    Except Err ExecutionResult :=
  match validateAgents reg (coordinator :: workers) with
  | .error e => .error e
  | .ok _ =>
    match lookupAgent reg coordinator with
    | none => .error (.flow ("Coordinator agent not found: " ++ coordinator)
        "AGENT_NOT_FOUND")
    | some _ =>
      match planOutcome with
      | .error e => .error (.taskExec task coordinator e)
      | .ok plan =>
        match executeParallel reg
          ("Execute the subtask assigned to you by the coordinator for the main task: " ++ task)
          workers workerOutcome workerElapsed with
        | .error e => .error (.taskExec task coordinator e)
        | .ok workerResults =>
          match aggOutcome with
          | .error e => .error (.taskExec task coordinator e)
          | .ok finalResult =>
            let tEnd := t0 + plan.duration + workerElapsed + finalResult.duration
            let totalCost := plan.costOrZero + finalResult.costOrZero +
              sumBy ExecutionResult.cost workerResults
            let totalTokens : TokenUsage :=
              ⟨plan.tokensInput + finalResult.tokensInput +
                 sumBy (fun r => r.tokensUsed.input) workerResults,
               plan.tokensOutput + finalResult.tokensOutput +
                 sumBy (fun r => r.tokensUsed.output) workerResults⟩
            .ok { agent := coordinator, status := "fulfilled",
                  output := some finalResult, error := none,
                  duration := tEnd - t0, cost := totalCost,
                  tokensUsed := totalTokens }

/-- `TaskExecution` from `types.ts` (`mode` kept as the raw optional string
the `||`-default inspects; the remaining fields are the ones `execute`
reads). -/
structure TaskExecution where
  task : String
  agents : List String
  mode : Option String := none
  timeout : Option ℚ := none
deriving DecidableEq, Repr

/-- `FlowOrchestrator.execute`: `const mode = execution.mode || 'parallel'`
(JS truthiness: an absent or empty mode string defaults to `'parallel'`),
then dispatch — parallel and sequential return their result lists (the
sequential call-index/store traces are internal side effects), hierarchical
first checks `agents.length < 2` and wraps its single result in a list, and
any other mode string fails with `INVALID_EXECUTION`. -/
def execute (reg : Registry) (ex : TaskExecution)
    (outcome : ℕ → Except Err CallOk) (elapsed : ℚ)
    (planOutcome : Except Err CallOk) (workerElapsed : ℚ)
    (aggOutcome : Except Err CallOk) (t0 : ℚ) :
    Except Err (List ExecutionResult) :=
  let mode := match ex.mode with
    | none => "parallel"
    | some s => if s = "" then "parallel" else s
  if mode = "parallel" then
    executeParallel reg ex.task ex.agents outcome elapsed
  else if mode = "sequential" then
    (executeSequential reg ex.task ex.agents outcome).map (fun t => t.1)
  else if mode = "hierarchical" then
    match ex.agents with
    | [] => .error (.flow
        "Hierarchical mode requires at least 2 agents (1 coordinator + 1 worker)"
        "INVALID_EXECUTION")
    | [_] => .error (.flow
        "Hierarchical mode requires at least 2 agents (1 coordinator + 1 worker)"
        "INVALID_EXECUTION")
    | coordinator :: workers =>
      (executeHierarchical reg ex.task coordinator workers
        planOutcome outcome workerElapsed aggOutcome t0).map (fun r => [r])
  else
    .error (.flow ("Unknown execution mode: " ++ mode) "INVALID_EXECUTION")

/-- The orchestrator's observable state: the registry owned by its
`AgentManager` and the coordination store (value payloads of type `α`). -/
structure OrchState (α : Type) where
  agents : Registry
  mem : MemState α
deriving DecidableEq, Repr

/-- `FlowOrchestrator.shutdown`: `agentManager.shutdown()` terminates every
registered agent (best-effort remote session deletes), the client is closed,
and `memory.clear()` empties the coordination store. -/
def shutdown {α : Type} (st : OrchState α) : OrchState α :=
  { agents := [], mem := memClear st.mem }

-- ===========================================================================
-- Concrete fixtures (used by the witness theorems)
-- ===========================================================================

/-- A minimal valid agent configuration. -/
def cfgA1 : AgentConfig := { name := "a1", agent := "general", model := "test-model" }

/-- A second valid agent configuration. -/
def cfgA2 : AgentConfig := { name := "a2", agent := "general", model := "test-model" }

/-- A third valid agent configuration. -/
def cfgA3 : AgentConfig := { name := "a3", agent := "general", model := "test-model" }

/-- A freshly-spawned handle for `a1` (zeroed metrics). -/
def agentA1 : AgentInstance :=
  { name := "a1", sessionId := "s1", config := cfgA1, status := "idle",
    createdAt := 0, lastActivity := 0, metrics := some ⟨0, 0, ⟨0, 0⟩, 0⟩ }

/-- A freshly-spawned handle for `a2`. -/
def agentA2 : AgentInstance :=
  { name := "a2", sessionId := "s2", config := cfgA2, status := "idle",
    createdAt := 0, lastActivity := 0, metrics := some ⟨0, 0, ⟨0, 0⟩, 0⟩ }

/-- A freshly-spawned handle for `a3`. -/
def agentA3 : AgentInstance :=
  { name := "a3", sessionId := "s3", config := cfgA3, status := "idle",
    createdAt := 0, lastActivity := 0, metrics := some ⟨0, 0, ⟨0, 0⟩, 0⟩ }

/-- Registry holding only `a1`. -/
def reg1 : Registry := [agentA1]

/-- Registry holding `a1`, `a2`. -/
def reg2 : Registry := [agentA1, agentA2]

/-- Registry holding `a1`, `a2`, `a3`. -/
def reg3 : Registry := [agentA1, agentA2, agentA3]

/-- A stubbed successful remote completion. -/
def okCallSmall : CallOk := { cost := some (1 / 100), tokens := some ⟨100, 50⟩, duration := 10 }

/-- A stubbed remote failure. -/
def remoteBoom : Err := .flow "connection refused" "REMOTE_ERROR"

/-- Outcome oracle: the call of index 1 fails, every other call succeeds. -/
def outcomeFailAt1 : ℕ → Except Err CallOk :=
  fun i => if i = 1 then .error remoteBoom else .ok okCallSmall

/-- Outcome oracle: every call succeeds. -/
def outcomeAllOk : ℕ → Except Err CallOk := fun _ => .ok okCallSmall

/-- Metrics update carrying only a latency of 2000 ms. -/
def updLatency2000 : MetricsUpdate := { latency := some 2000 }

/-- Metrics update carrying only a latency of 1500 ms. -/
def updLatency1500 : MetricsUpdate := { latency := some 1500 }

-- ===========================================================================
-- Helper lemmas: association lists and key sanitization
-- ===========================================================================

theorem getAssoc_setAssoc_self {β : Type} (k : String) (v : β) (l : List (String × β)) :
    getAssoc k (setAssoc k v l) = some v := by
  induction l with
  | nil => simp [setAssoc, getAssoc]
  | cons p rest ih =>
    obtain ⟨k', v'⟩ := p
    by_cases h : k' = k
    · simp [setAssoc, getAssoc, h]
    · simp [setAssoc, getAssoc, h, ih]

theorem getAssoc_delAssoc_self {β : Type} (k : String) (l : List (String × β)) :
    getAssoc k (delAssoc k l) = none := by
  induction l with
  | nil => simp [delAssoc, getAssoc]
  | cons p rest ih =>
    obtain ⟨k', v'⟩ := p
    by_cases h : k' = k
    · simp [delAssoc, h, ih]
    · simp [delAssoc, getAssoc, h, ih]

theorem isSafeChar_of_mem_sanitizeKey (k : String) :
    ∀ c ∈ (sanitizeKey k).data, isSafeChar c = true := by
  intro c hc
  simp only [sanitizeKey, List.mem_map] at hc
  obtain ⟨c', _, hc'⟩ := hc
  subst hc'
  by_cases h : isSafeChar c' = true
  · rw [if_pos h]; exact h
  · rw [if_neg h]; decide

theorem ne_dot_of_safe {c : Char} (h : isSafeChar c = true) : c ≠ '.' := by
  intro he
  subst he
  exact absurd h (by decide)

theorem removeFirst_append_of_no_dot (l : List Char) (h : ∀ c ∈ l, c ≠ '.') :
    removeFirst ".json".data (l ++ ".json".data) = l := by
  induction l with
  | nil => rfl
  | cons c rest ih =>
    have hc : c ≠ '.' := h c (List.mem_cons_self c rest)
    have hpre : ¬ (".json".data.isPrefixOf (c :: (rest ++ ".json".data)) = true) := by
      rw [List.isPrefixOf_iff_prefix]
      show ¬ ('.' :: "json".data <+: c :: (rest ++ ".json".data))
      rw [List.cons_prefix_cons]
      rintro ⟨h1, -⟩
      exact hc h1.symm
    calc removeFirst ".json".data (c :: rest ++ ".json".data)
        = c :: removeFirst ".json".data (rest ++ ".json".data) := by
          rw [List.cons_append, removeFirst, if_neg hpre]
      _ = c :: rest := by rw [ih (fun x hx => h x (List.mem_cons_of_mem c hx))]

theorem stripJson_fileNameOf (k : String) : stripJson (fileNameOf k) = sanitizeKey k := by
  have hnd : ∀ c ∈ (sanitizeKey k).data, c ≠ '.' :=
    fun c hc => ne_dot_of_safe (isSafeChar_of_mem_sanitizeKey k c hc)
  apply String.ext
  show removeFirst ".json".data (sanitizeKey k ++ ".json").data = (sanitizeKey k).data
  rw [String.data_append]
  exact removeFirst_append_of_no_dot _ hnd

theorem strEndsWithJson_fileNameOf (k : String) : strEndsWithJson (fileNameOf k) = true := by
  show List.isSuffixOf _ _ = true
  rw [List.isSuffixOf_iff_suffix]
  show ".json".data <:+ (sanitizeKey k ++ ".json").data
  rw [String.data_append]
  exact List.suffix_append _ _

-- ===========================================================================
-- Claim theorems: coordination store
-- ===========================================================================

/-- C9: `shutdown()` clears the coordination store: after `shutdown`
completes, the in-memory cache and the backing storage directory are both
empty — every entry previously written via `memory.set` has been removed —
and any subsequent `get` reports absent. -/
theorem shutdown_clears_memory {α : Type} (st : OrchState α) (k : String) (now : ℚ) :
    (shutdown st).mem.cache = [] ∧ (shutdown st).mem.files = [] ∧
    (memGet (shutdown st).mem k now).1 = none :=
  ⟨rfl, rfl, rfl⟩

/-- C6 counterexample: the key-sanitization function used to derive file
names does collide on distinct keys — `"a.b"` and `"a:b"` are distinct but
map to the same storage-safe name (and hence the same backing file). -/
theorem sanitizeKey_collision :
    "a.b" ≠ "a:b" ∧ sanitizeKey "a.b" = sanitizeKey "a:b" ∧
    fileNameOf "a.b" = fileNameOf "a:b" := by
  refine ⟨by decide, ?_, ?_⟩ <;> rfl

/-- C6 amended: the sanitization is collision-free only on keys that are
already storage-safe — for keys made of characters in `[A-Za-z0-9_-]`,
distinct keys map to distinct storage names; for general keys it maps every
unsafe character to `'_'` and distinct keys can collide. -/
theorem sanitizeKey_injOn_safe (k1 k2 : String)
    (h1 : ∀ c ∈ k1.data, isSafeChar c = true)
    (h2 : ∀ c ∈ k2.data, isSafeChar c = true)
    (heq : sanitizeKey k1 = sanitizeKey k2) : k1 = k2 := by
  have fix : ∀ (k : String), (∀ c ∈ k.data, isSafeChar c = true) → sanitizeKey k = k := by
    intro k hk
    apply String.ext
    show k.data.map (fun c => if isSafeChar c then c else '_') = k.data
    calc k.data.map (fun c => if isSafeChar c then c else '_')
        = k.data.map id := List.map_congr_left (fun c hc => by simp [hk c hc])
      _ = k.data := List.map_id _
  rw [fix k1 h1, fix k2 h2] at heq
  exact heq

theorem sanitizeKey_injOn_safe_witness :
    (∀ c ∈ ("plan_v1-2" : String).data, isSafeChar c = true) ∧
    ("plan_v1-2" : String) = "plan_v1-2" :=
  ⟨by decide, sanitizeKey_injOn_safe "plan_v1-2" "plan_v1-2" (by decide) (by decide) rfl⟩

/-- C5: a key stored with a (non-zero) ttl and read after its `expiresAt`
has passed is deleted as a side effect — gone from both the cache and the
backing storage — and reported absent; a key stored without a ttl still
yields the stored value unchanged after an arbitrarily long wait. -/
theorem memGet_expiry (α : Type) (st : MemState α) (k : String) (v : α)
    (ttl now now' : ℚ) (httl : ttl ≠ 0) (hlate : now + ttl * 1000 < now') :
    memGet (memSet st k v (some ttl) now) k now' =
      (none, memDelete (memSet st k v (some ttl) now) k) ∧
    getAssoc k (memGet (memSet st k v (some ttl) now) k now').2.cache = none ∧
    getAssoc (fileNameOf k) (memGet (memSet st k v (some ttl) now) k now').2.files = none ∧
    ∀ now'' : ℚ, (memGet (memSet st k v none now) k now'').1 = some v := by
  have hmain : memGet (memSet st k v (some ttl) now) k now' =
      (none, memDelete (memSet st k v (some ttl) now) k) := by
    simp only [memSet, memGet, getAssoc_setAssoc_self, if_neg httl]
    rw [if_pos hlate]
  refine ⟨hmain, ?_, ?_, ?_⟩
  · rw [hmain]
    exact getAssoc_delAssoc_self k _
  · rw [hmain]
    exact getAssoc_delAssoc_self (fileNameOf k) _
  · intro now''
    simp only [memSet, memGet, getAssoc_setAssoc_self]

theorem memGet_expiry_witness :
    (1 : ℚ) ≠ 0 ∧ (0 : ℚ) + 1 * 1000 < 2000 ∧
    (memGet (memSet (emptyMem ℕ) "k" 42 (some 1) 0) "k" 2000 =
      (none, memDelete (memSet (emptyMem ℕ) "k" 42 (some 1) 0) "k") ∧
     getAssoc "k" (memGet (memSet (emptyMem ℕ) "k" 42 (some 1) 0) "k" 2000).2.cache = none ∧
     getAssoc (fileNameOf "k")
       (memGet (memSet (emptyMem ℕ) "k" 42 (some 1) 0) "k" 2000).2.files = none ∧
     ∀ now'' : ℚ, (memGet (memSet (emptyMem ℕ) "k" 42 none 0) "k" now'').1 = some 42) :=
  ⟨by decide, by norm_num,
    memGet_expiry ℕ (emptyMem ℕ) "k" 42 1 0 2000 (by decide) (by norm_num)⟩

/-- C10: `listKeys` reports the sanitized storage names, not the keys passed
to `set`: for a key containing any character outside `[A-Za-z0-9_-]`, the
name listed after `set(key, v)` is `sanitizeKey key` — each unsafe character
replaced by `'_'` — which differs from the key itself. -/
theorem listKeys_reports_sanitized (α : Type) (k : String) (v : α)
    (ttl : Option ℚ) (now : ℚ)
    (h : k.data.any (fun c => !isSafeChar c) = true) :
    memListKeys (memSet (emptyMem α) k v ttl now) = [sanitizeKey k] ∧
    sanitizeKey k ≠ k ∧
    (sanitizeKey k).data = k.data.map (fun c => if isSafeChar c then c else '_') := by
  refine ⟨?_, ?_, rfl⟩
  · simp [memListKeys, memSet, emptyMem, setAssoc,
      strEndsWithJson_fileNameOf, stripJson_fileNameOf]
  · rw [List.any_eq_true] at h
    obtain ⟨c, hcmem, hcbad⟩ := h
    intro he
    have hall : ∀ c' ∈ k.data, isSafeChar c' = true := by
      have hs := isSafeChar_of_mem_sanitizeKey k
      rw [he] at hs
      exact hs
    rw [hall c hcmem] at hcbad
    simp at hcbad

-- ===========================================================================
-- Claim theorems: agent registry
-- ===========================================================================

theorem lookupAgent_updateMetrics (reg : Registry) (name : String) (u : MetricsUpdate)
    (a : AgentInstance) (hfind : lookupAgent reg name = some a) :
    lookupAgent (updateMetrics reg name u) name = some (
      match a.metrics with
      | some m => { a with metrics := some (updateMetricsOn m u) }
      | none => a) := by
  induction reg with
  | nil => simp [lookupAgent] at hfind
  | cons b rest ih =>
    by_cases hb : b.name = name
    · have hfb : lookupAgent (b :: rest) name = some b := by
        simp [lookupAgent, List.find?_cons_of_pos, hb]
      rw [hfind] at hfb
      have hab : a = b := Option.some.inj hfb
      subst hab
      simp only [updateMetrics, List.map_cons, if_pos hb]
      cases hm : a.metrics with
      | some m =>
        simp only [hm, lookupAgent]
        exact List.find?_cons_of_pos _ (by simp [hb])
      | none =>
        simp only [hm, lookupAgent]
        exact List.find?_cons_of_pos _ (by simp [hb])
    · have hfr : lookupAgent rest name = some a := by
        simpa [lookupAgent, List.find?_cons_of_neg, hb] using hfind
      have := ih hfr
      simp only [updateMetrics, List.map_cons, if_neg hb, lookupAgent] at this ⊢
      rw [List.find?_cons_of_neg _ (by simp [hb])]
      exact this

/-- C7: `updateMetrics` with a latency value increments `tasksCompleted` by
one and recomputes `averageLatency` as
`(oldAverage * oldCount + newLatency) / newCount`, whatever other fields the
update carries; in particular, starting from zeroed metrics, two successive
calls with latencies 2000 and 1500 yield `averageLatency = 1750` and
`tasksCompleted = 2`. -/
theorem updateMetrics_latency (reg : Registry) (name : String) (u : MetricsUpdate)
    (l : ℚ) (a : AgentInstance) (m : AgentMetrics)
    (hl : u.latency = some l)
    (hfind : lookupAgent reg name = some a)
    (hm : a.metrics = some m) :
    lookupAgent (updateMetrics reg name u) name =
      some { a with metrics := some (updateMetricsOn m u) } ∧
    (updateMetricsOn m u).tasksCompleted = m.tasksCompleted + 1 ∧
    (updateMetricsOn m u).averageLatency =
      (m.averageLatency * (m.tasksCompleted : ℚ) + l) / ((m.tasksCompleted : ℚ) + 1) ∧
    (updateMetricsOn (updateMetricsOn ⟨0, 0, ⟨0, 0⟩, 0⟩ updLatency2000)
        updLatency1500).tasksCompleted = 2 ∧
    (updateMetricsOn (updateMetricsOn ⟨0, 0, ⟨0, 0⟩, 0⟩ updLatency2000)
        updLatency1500).averageLatency = 1750 := by
  refine ⟨?_, ?_, ?_, ?_, ?_⟩
  · rw [lookupAgent_updateMetrics reg name u a hfind, hm]
  · cases hc : u.cost <;> cases ht : u.tokens <;>
      simp [updateMetricsOn, hl, hc, ht]
  · cases hc : u.cost <;> cases ht : u.tokens <;>
      simp [updateMetricsOn, hl, hc, ht]
  · simp [updateMetricsOn, updLatency2000, updLatency1500]
  · simp [updateMetricsOn, updLatency2000, updLatency1500]
    norm_num

theorem updateMetrics_latency_witness :
    updLatency2000.latency = some 2000 ∧
    lookupAgent reg1 "a1" = some agentA1 ∧
    agentA1.metrics = some ⟨0, 0, ⟨0, 0⟩, 0⟩ ∧
    (lookupAgent (updateMetrics reg1 "a1" updLatency2000) "a1" =
      some { agentA1 with metrics := some (updateMetricsOn ⟨0, 0, ⟨0, 0⟩, 0⟩ updLatency2000) } ∧
     (updateMetricsOn ⟨0, 0, ⟨0, 0⟩, 0⟩ updLatency2000).tasksCompleted = 0 + 1 ∧
     (updateMetricsOn ⟨0, 0, ⟨0, 0⟩, 0⟩ updLatency2000).averageLatency =
       ((0 : ℚ) * ((0 : ℕ) : ℚ) + 2000) / (((0 : ℕ) : ℚ) + 1) ∧
     (updateMetricsOn (updateMetricsOn ⟨0, 0, ⟨0, 0⟩, 0⟩ updLatency2000)
         updLatency1500).tasksCompleted = 2 ∧
     (updateMetricsOn (updateMetricsOn ⟨0, 0, ⟨0, 0⟩, 0⟩ updLatency2000)
         updLatency1500).averageLatency = 1750) :=
  ⟨rfl, rfl, rfl,
    updateMetrics_latency reg1 "a1" updLatency2000 2000 agentA1 ⟨0, 0, ⟨0, 0⟩, 0⟩ rfl rfl rfl⟩

/-- C4: spawning a config whose name is already registered fails with an
`AgentSpawnError` wrapping the `AGENT_EXISTS` error, no remote session is
created (no gateway call is issued), the registry is returned unchanged, and
`list()` still reports exactly one entry with that name. -/
theorem spawn_duplicate_name (reg : Registry) (config : AgentConfig) (n : String)
    (now : ℕ) (sessionResult : Except Err Session) (promptResult : Except Err CallOk)
    (hname : config.name = n)
    (hvalid : validateConfig config = .ok ())
    (hcount : (listAgents reg).count n = 1) :
    spawn reg config now sessionResult promptResult =
      (.error (.agentSpawn n (.flow ("Agent with name '" ++ n ++ "' already exists")
        "AGENT_EXISTS")), reg, []) ∧
    (Err.agentSpawn n (.flow ("Agent with name '" ++ n ++ "' already exists")
      "AGENT_EXISTS")).cause.map Err.code = some "AGENT_EXISTS" ∧
    (listAgents reg).count n = 1 := by
  subst hname
  have hmem : config.name ∈ listAgents reg := by
    have hpos : 0 < (listAgents reg).count config.name := by omega
    exact List.count_pos_iff.mp hpos
  have hhas : hasAgent reg config.name = true := by
    simp only [listAgents, List.mem_map] at hmem
    obtain ⟨a, ha, hna⟩ := hmem
    simp only [hasAgent, lookupAgent, List.find?_isSome]
    exact ⟨a, ha, by simp [hna]⟩
  refine ⟨?_, rfl, hcount⟩
  simp [spawn, spawnGo, hvalid, hhas]

theorem spawn_duplicate_name_witness :
    cfgA1.name = "a1" ∧
    validateConfig cfgA1 = .ok () ∧
    (listAgents reg1).count "a1" = 1 ∧
    (spawn reg1 cfgA1 0 (.ok ⟨"s9", "t"⟩) (.ok okCallSmall) =
      (.error (.agentSpawn "a1" (.flow ("Agent with name '" ++ "a1" ++ "' already exists")
        "AGENT_EXISTS")), reg1, []) ∧
     (Err.agentSpawn "a1" (.flow ("Agent with name '" ++ "a1" ++ "' already exists")
       "AGENT_EXISTS")).cause.map Err.code = some "AGENT_EXISTS" ∧
     (listAgents reg1).count "a1" = 1) :=
  ⟨rfl, rfl, rfl,
    spawn_duplicate_name reg1 cfgA1 "a1" 0 (.ok ⟨"s9", "t"⟩) (.ok okCallSmall) rfl rfl rfl⟩

-- ===========================================================================
-- Claim theorems: execution engine
-- ===========================================================================

/-- C8: a `TaskExecution` with no `mode` behaves exactly as
`mode = 'parallel'`: `execute` dispatches to the parallel algorithm and
returns its result list. -/
theorem execute_default_mode_parallel (reg : Registry) (task : String)
    (agents : List String) (timeout : Option ℚ)
    (outcome : ℕ → Except Err CallOk) (elapsed : ℚ)
    (planOutcome : Except Err CallOk) (workerElapsed : ℚ)
    (aggOutcome : Except Err CallOk) (t0 : ℚ) :
    execute reg { task := task, agents := agents, mode := none, timeout := timeout }
      outcome elapsed planOutcome workerElapsed aggOutcome t0 =
      executeParallel reg task agents outcome elapsed ∧
    execute reg { task := task, agents := agents, mode := none, timeout := timeout }
      outcome elapsed planOutcome workerElapsed aggOutcome t0 =
      execute reg { task := task, agents := agents, mode := some "parallel", timeout := timeout }
        outcome elapsed planOutcome workerElapsed aggOutcome t0 :=
  ⟨rfl, rfl⟩

theorem listKeys_reports_sanitized_witness :
    ("coordination plan" : String).data.any (fun c => !isSafeChar c) = true ∧
    (memListKeys (memSet (emptyMem ℕ) "coordination plan" 7 none 0) =
       [sanitizeKey "coordination plan"] ∧
     sanitizeKey "coordination plan" ≠ "coordination plan" ∧
     (sanitizeKey "coordination plan").data =
       ("coordination plan" : String).data.map
         (fun c => if isSafeChar c then c else '_')) :=
  ⟨by decide, listKeys_reports_sanitized ℕ "coordination plan" 7 none 0 (by decide)⟩

-- ===========================================================================
-- Helper lemmas: execution engine
-- ===========================================================================

theorem validateAgents_ok (reg : Registry) (agents : List String)
    (hne : agents ≠ []) (hreg : ∀ n ∈ agents, hasAgent reg n = true) :
    validateAgents reg agents = .ok () := by
  have hfind : agents.find? (fun n => !hasAgent reg n) = none :=
    List.find?_eq_none.mpr (fun x hx => by simp [hreg x hx])
  simp only [validateAgents]
  rw [if_neg hne, hfind]

theorem lookupAgent_isSome_of_has (reg : Registry) (n : String)
    (h : hasAgent reg n = true) : ∃ a, lookupAgent reg n = some a := by
  simpa [hasAgent, Option.isSome_iff_exists] using h

theorem enum_getElem? {γ : Type} (l : List γ) (i : ℕ) :
    l.enum[i]? = l[i]?.map (fun a => (i, a)) := by
  rw [List.enum_eq_enumFrom, List.getElem?_enumFrom]
  simp

theorem sumBy_eq_sum_map (f : ExecutionResult → ℚ) (l : List ExecutionResult) :
    sumBy f l = (l.map f).sum := by
  suffices h : ∀ c, l.foldl (fun s r => s + f r) c = c + (l.map f).sum by
    simpa [sumBy] using h 0
  induction l with
  | nil => intro c; simp
  | cons x xs ih => intro c; simp [ih]; ring

/-- C1: on a non-empty list of registered agents, `executeParallel` succeeds
with a result list of the same length whose slot `i` belongs to `agents[i]`,
whatever the remote outcomes (and hence whatever the completion order); a
slot whose remote call failed carries status `rejected`, the captured error,
zero cost and zero tokens, and a slot whose call succeeded carries the
fulfilled result of that call. -/
theorem executeParallel_ordered (reg : Registry) (task : String)
    (agents : List String) (outcome : ℕ → Except Err CallOk) (elapsed : ℚ)
    (hne : agents ≠ [])
    (hreg : ∀ n ∈ agents, hasAgent reg n = true) :
    ∃ res : List ExecutionResult,
      executeParallel reg task agents outcome elapsed = .ok res ∧
      res.length = agents.length ∧
      ∀ i (hi : i < agents.length),
        ∃ r, res[i]? = some r ∧ r.agent = agents[i] ∧
          (∀ c, outcome i = .ok c → r = fulfilledResult (agents[i]) c) ∧
          (∀ e, outcome i = .error e →
            r = { agent := agents[i], status := "rejected", output := none,
                  error := some (.taskExec task (agents[i]) e),
                  duration := elapsed, cost := 0, tokensUsed := ⟨0, 0⟩ }) := by
  have hval : validateAgents reg agents = .ok () := validateAgents_ok reg agents hne hreg
  have hexec : executeParallel reg task agents outcome elapsed =
      .ok (agents.enum.map (fun p =>
        match lookupAgent reg p.2 with
        | none =>
          { agent := p.2, status := "rejected", output := none,
            error := some (.flow ("Agent not found: " ++ p.2) "AGENT_NOT_FOUND"),
            duration := elapsed, cost := 0, tokensUsed := ⟨0, 0⟩ }
        | some _ =>
          match outcome p.1 with
          | .ok r => fulfilledResult p.2 r
          | .error e =>
            { agent := p.2, status := "rejected", output := none,
              error := some (.taskExec task p.2 e),
              duration := elapsed, cost := 0, tokensUsed := ⟨0, 0⟩ })) := by
    simp only [executeParallel, hval]
  refine ⟨_, hexec, by simp, ?_⟩
  intro i hi
  obtain ⟨a, ha⟩ := lookupAgent_isSome_of_has reg (agents[i])
    (hreg _ (List.getElem_mem hi))
  have hslot : (agents.enum.map (fun p =>
      match lookupAgent reg p.2 with
      | none =>
        { agent := p.2, status := "rejected", output := none,
          error := some (.flow ("Agent not found: " ++ p.2) "AGENT_NOT_FOUND"),
          duration := elapsed, cost := 0, tokensUsed := ⟨0, 0⟩ }
      | some _ =>
        match outcome p.1 with
        | .ok r => fulfilledResult p.2 r
        | .error e =>
          { agent := p.2, status := "rejected", output := none,
            error := some (.taskExec task p.2 e),
            duration := elapsed, cost := 0, tokensUsed := ⟨0, 0⟩ }))[i]? =
      some (match outcome i with
        | .ok c => fulfilledResult (agents[i]) c
        | .error e =>
          { agent := agents[i], status := "rejected", output := none,
            error := some (.taskExec task (agents[i]) e),
            duration := elapsed, cost := 0, tokensUsed := ⟨0, 0⟩ }) := by
    rw [List.getElem?_map, enum_getElem?, List.getElem?_eq_getElem hi]
    simp [ha]
  cases ho : outcome i with
  | ok c =>
    rw [ho] at hslot
    exact ⟨fulfilledResult (agents[i]) c, hslot, rfl,
      fun c' hc' => by injection hc' with h; rw [h],
      fun e he => Except.noConfusion he⟩
  | error e =>
    rw [ho] at hslot
    exact ⟨{ agent := agents[i], status := "rejected", output := none,
             error := some (.taskExec task (agents[i]) e),
             duration := elapsed, cost := 0, tokensUsed := ⟨0, 0⟩ }, hslot, rfl,
      fun c' hc' => Except.noConfusion hc',
      fun e' he' => by injection he' with h; rw [h]⟩

theorem executeParallel_ordered_witness :
    (["a1", "a2"] : List String) ≠ [] ∧
    (∃ res : List ExecutionResult,
      executeParallel reg2 "t" ["a1", "a2"] outcomeFailAt1 5 = .ok res ∧
      res.length = (["a1", "a2"] : List String).length ∧
      ∀ i (hi : i < (["a1", "a2"] : List String).length),
        ∃ r, res[i]? = some r ∧ r.agent = (["a1", "a2"] : List String)[i] ∧
          (∀ c, outcomeFailAt1 i = .ok c →
            r = fulfilledResult ((["a1", "a2"] : List String)[i]) c) ∧
          (∀ e, outcomeFailAt1 i = .error e →
            r = { agent := (["a1", "a2"] : List String)[i], status := "rejected",
                  output := none,
                  error := some (.taskExec "t" ((["a1", "a2"] : List String)[i]) e),
                  duration := 5, cost := 0, tokensUsed := ⟨0, 0⟩ })) :=
  ⟨by decide,
    executeParallel_ordered reg2 "t" ["a1", "a2"] outcomeFailAt1 5 (by decide) (by decide)⟩

theorem executeSequentialGo_failfast (reg : Registry) (task : String)
    (outcome : ℕ → Except Err CallOk) :
    ∀ (agents : List String) (start k : ℕ) (e : Err) (hk : k < agents.length),
      (∀ n ∈ agents, hasAgent reg n = true) →
      outcome (start + k) = .error e →
      (∀ j, j < k → ∃ c, outcome (start + j) = .ok c) →
      ∃ res called writes,
        executeSequentialGo reg task outcome start agents = .ok (res, called, writes) ∧
        res.length = k + 1 ∧
        called = (List.range (k + 1)).map (start + ·) ∧
        res.getLast? = some (seqRejectedResult (agents[k]) e) := by
  intro agents
  induction agents with
  | nil =>
    intro start k e hk
    exact absurd hk (Nat.not_lt_zero k)
  | cons a rest ih =>
    intro start k e hk hreg hfail hsucc
    obtain ⟨b, hb⟩ := lookupAgent_isSome_of_has reg a (hreg a (List.mem_cons_self a rest))
    cases k with
    | zero =>
      rw [Nat.add_zero] at hfail
      refine ⟨[seqRejectedResult a e], [start], [], ?_, rfl, ?_, rfl⟩
      · simp [executeSequentialGo, hb, hfail]
      · simp [List.range_succ]
    | succ k' =>
      obtain ⟨c0, hc0⟩ := hsucc 0 (Nat.succ_pos k')
      rw [Nat.add_zero] at hc0
      have hk' : k' < rest.length := by simpa using hk
      have hfail' : outcome (start + 1 + k') = .error e := by
        rw [show start + 1 + k' = start + (k' + 1) by omega]
        exact hfail
      have hsucc' : ∀ j, j < k' → ∃ c, outcome (start + 1 + j) = .ok c := by
        intro j hj
        rw [show start + 1 + j = start + (j + 1) by omega]
        exact hsucc (j + 1) (by omega)
      obtain ⟨res', called', writes', hgo, hlen, hcalled, hlast⟩ :=
        ih (start + 1) k' e hk' (fun n hn => hreg n (List.mem_cons_of_mem a hn))
          hfail' hsucc'
      refine ⟨fulfilledResult a c0 :: res', start :: called',
        (a ++ "_result", c0) :: writes', ?_, ?_, ?_, ?_⟩
      · simp [executeSequentialGo, hb, hc0, hgo]
      · simp [hlen]
      · rw [hcalled]
        conv_rhs => rw [List.range_succ_eq_map]
        rw [List.map_cons, List.map_map]
        congr 1
        apply List.map_congr_left
        intro j _
        simp only [Function.comp_apply]
        omega
      · cases res' with
        | nil => rw [List.length_nil] at hlen; omega
        | cons x xs =>
          rw [List.getLast?_cons_cons]
          exact hlast

/-- C2: in sequential mode, when the agent at index `k` is the first whose
remote call fails, `executeSequential` returns exactly `k + 1` results ending
with the rejected result of that agent (carrying the raw captured error,
zero duration/cost/tokens), and the only remote calls issued are those of
indices `0 .. k` — no agent after index `k` is ever prompted. -/
theorem executeSequential_failfast (reg : Registry) (task : String)
    (agents : List String) (outcome : ℕ → Except Err CallOk) (k : ℕ) (e : Err)
    (hk : k < agents.length)
    (hreg : ∀ n ∈ agents, hasAgent reg n = true)
    (hfail : outcome k = .error e)
    (hsucc : ∀ j, j < k → ∃ c, outcome j = .ok c) :
    ∃ res called writes,
      executeSequential reg task agents outcome = .ok (res, called, writes) ∧
      res.length = k + 1 ∧
      res.getLast? = some (seqRejectedResult (agents[k]) e) ∧
      called = List.range (k + 1) ∧
      ∀ j ∈ called, j ≤ k := by
  have hne : agents ≠ [] := by
    intro h
    rw [h] at hk
    exact absurd hk (Nat.not_lt_zero k)
  have hval : validateAgents reg agents = .ok () := validateAgents_ok reg agents hne hreg
  obtain ⟨res, called, writes, hgo, hlen, hcalled, hlast⟩ :=
    executeSequentialGo_failfast reg task outcome agents 0 k e hk hreg
      (by simpa using hfail) (by simpa using hsucc)
  have hcalled' : called = List.range (k + 1) := by
    rw [hcalled]
    simp
  refine ⟨res, called, writes, ?_, hlen, hlast, hcalled', ?_⟩
  · simp [executeSequential, hval, hgo]
  · intro j hj
    rw [hcalled'] at hj
    exact Nat.lt_succ_iff.mp (List.mem_range.mp hj)

theorem executeSequential_failfast_witness :
    (1 < (["a1", "a2", "a3"] : List String).length) ∧
    (∃ res called writes,
      executeSequential reg3 "t" ["a1", "a2", "a3"] outcomeFailAt1 =
        .ok (res, called, writes) ∧
      res.length = 1 + 1 ∧
      res.getLast? = some (seqRejectedResult "a2" remoteBoom) ∧
      called = List.range (1 + 1) ∧
      ∀ j ∈ called, j ≤ 1) :=
  ⟨by decide,
    executeSequential_failfast reg3 "t" ["a1", "a2", "a3"] outcomeFailAt1 1 remoteBoom
      (by decide) (by decide) rfl
      (fun j hj => ⟨okCallSmall, by
        show (if j = 1 then (.error remoteBoom : Except Err CallOk)
          else .ok okCallSmall) = .ok okCallSmall
        rw [if_neg (by omega)]⟩)⟩

/-- C3: when the planning call, the worker phase and the aggregation call
all go through, `executeHierarchical` returns a single result attributed to
the coordinator whose cost and token counts are the sums over the planning
call, every worker result and the aggregation call, and whose duration is
the wall-clock span from immediately before the planning call (`t0`) to
immediately after the aggregation call. -/
theorem executeHierarchical_totals (reg : Registry) (task coordinator : String)
    (workers : List String) (plan finalR : CallOk)
    (workerOutcome : ℕ → Except Err CallOk) (workerElapsed t0 : ℚ)
    (hwne : workers ≠ [])
    (hreg : ∀ n ∈ coordinator :: workers, hasAgent reg n = true) :
    ∃ wres : List ExecutionResult,
      executeParallel reg
        ("Execute the subtask assigned to you by the coordinator for the main task: " ++ task)
        workers workerOutcome workerElapsed = .ok wres ∧
      executeHierarchical reg task coordinator workers (.ok plan) workerOutcome
        workerElapsed (.ok finalR) t0 = .ok
        { agent := coordinator, status := "fulfilled",
          output := some finalR, error := none,
          duration := (t0 + plan.duration + workerElapsed + finalR.duration) - t0,
          cost := plan.costOrZero + (wres.map ExecutionResult.cost).sum + finalR.costOrZero,
          tokensUsed :=
            ⟨plan.tokensInput + (wres.map (fun r => r.tokensUsed.input)).sum +
               finalR.tokensInput,
             plan.tokensOutput + (wres.map (fun r => r.tokensUsed.output)).sum +
               finalR.tokensOutput⟩ } := by
  have hvalall : validateAgents reg (coordinator :: workers) = .ok () :=
    validateAgents_ok reg _ (by simp) hreg
  have hvalw : validateAgents reg workers = .ok () :=
    validateAgents_ok reg workers hwne
      (fun n hn => hreg n (List.mem_cons_of_mem _ hn))
  obtain ⟨b, hb⟩ := lookupAgent_isSome_of_has reg coordinator
    (hreg coordinator (List.mem_cons_self _ _))
  obtain ⟨wres, hw⟩ : ∃ wres, executeParallel reg
      ("Execute the subtask assigned to you by the coordinator for the main task: " ++ task)
      workers workerOutcome workerElapsed = .ok wres := by
    simp only [executeParallel, hvalw]
    exact ⟨_, rfl⟩
  have hcost : plan.costOrZero + finalR.costOrZero + sumBy ExecutionResult.cost wres =
      plan.costOrZero + (wres.map ExecutionResult.cost).sum + finalR.costOrZero := by
    rw [sumBy_eq_sum_map]
    ring
  have htin : plan.tokensInput + finalR.tokensInput +
      sumBy (fun r => r.tokensUsed.input) wres =
      plan.tokensInput + (wres.map (fun r => r.tokensUsed.input)).sum +
        finalR.tokensInput := by
    rw [sumBy_eq_sum_map]
    ring
  have htout : plan.tokensOutput + finalR.tokensOutput +
      sumBy (fun r => r.tokensUsed.output) wres =
      plan.tokensOutput + (wres.map (fun r => r.tokensUsed.output)).sum +
        finalR.tokensOutput := by
    rw [sumBy_eq_sum_map]
    ring
  refine ⟨wres, hw, ?_⟩
  simp only [executeHierarchical, hvalall, hb, hw, hcost, htin, htout]

theorem executeHierarchical_totals_witness :
    (["a2"] : List String) ≠ [] ∧
    (∃ wres : List ExecutionResult,
      executeParallel reg2
        ("Execute the subtask assigned to you by the coordinator for the main task: " ++ "t")
        ["a2"] outcomeAllOk 7 = .ok wres ∧
      executeHierarchical reg2 "t" "a1" ["a2"] (.ok okCallSmall) outcomeAllOk
        7 (.ok okCallSmall) 100 = .ok
        { agent := "a1", status := "fulfilled",
          output := some okCallSmall, error := none,
          duration := ((100 : ℚ) + okCallSmall.duration + 7 + okCallSmall.duration) - 100,
          cost := okCallSmall.costOrZero + (wres.map ExecutionResult.cost).sum +
            okCallSmall.costOrZero,
          tokensUsed :=
            ⟨okCallSmall.tokensInput + (wres.map (fun r => r.tokensUsed.input)).sum +
               okCallSmall.tokensInput,
             okCallSmall.tokensOutput + (wres.map (fun r => r.tokensUsed.output)).sum +
               okCallSmall.tokensOutput⟩ }) :=
  ⟨by decide,
    executeHierarchical_totals reg2 "t" "a1" ["a2"] okCallSmall okCallSmall
      outcomeAllOk 7 100 (by decide) (by decide)⟩

end OpencodeFlow
